import Mathlib

/-!
Verification of the sol-test repository: a Solana counter dApp plus a CLI
program caller.  The definitions below are a shallow embedding of the
TypeScript sources (src/vite-project/src/anchor/setup.ts,
src/vite-project/src/components/counter-state.tsx, and the later-revision
helpers in the unnamed source parts).  Theorems check the repository
specification against those definitions.
-/

namespace SolTest

/-! ## IDL type model (src/unnamed/part_002, `sizeForIdlType`)

An Anchor `IdlType` is either a primitive name (a plain string, so unknown
names such as "pubkey" are representable), a fixed array whose length may be
a number or a generic (non-numeric) length, an option/coption wrapper, a
vec, a defined-type reference, a generic parameter, or some other object
shape. -/

inductive IdlType where
  | prim (name : String)
  | array (elem : IdlType) (len : Option Nat)
  | option (inner : IdlType)
  | coption (inner : IdlType)
  | vec (elem : IdlType)
  | defined (name : String)
  | generic (name : String)
  | other
deriving DecidableEq, Repr

/-- Byte width of one IDL type, mirroring `sizeForIdlType` in
src/unnamed/part_002 lines 32-81: primitives by name with a warn-and-zero
default, arrays multiply (a non-numeric length counts as 0), option and
coption add one presence byte, and vec / defined / generic / anything else
contribute 0. -/
def sizeForIdlType : IdlType → Nat
  | .prim "bool" => 1
  | .prim "u8" => 1
  | .prim "i8" => 1
  | .prim "u16" => 2
  | .prim "i16" => 2
  | .prim "u32" => 4
  | .prim "i32" => 4
  | .prim "f32" => 4
  | .prim "u64" => 8
  | .prim "i64" => 8
  | .prim "f64" => 8
  | .prim "u128" => 16
  | .prim "i128" => 16
  | .prim _ => 0
  | .array elem len => (match len with | some n => n | none => 0) * sizeForIdlType elem
  | .option inner => 1 + sizeForIdlType inner
  | .coption inner => 1 + sizeForIdlType inner
  | .vec _ => 0
  | .defined _ => 0
  | .generic _ => 0
  | .other => 0

/-- One struct field: either a bare IDL type or an object with a `type`
attribute (the `StructField` union in part_002 line 26). -/
inductive StructField where
  | bare (t : IdlType)
  | named (name : String) (t : IdlType)
deriving DecidableEq, Repr

/-- The IDL type carried by a struct field, as extracted by the reducer in
`computeStructSize` (part_002 lines 92-97). -/
def StructField.fieldType : StructField → IdlType
  | .bare t => t
  | .named _ t => t

/-- The `type` attribute of an IDL type definition: a kind tag and an
optional field list (`fields` is absent for enum-like definitions). -/
structure TypeDefType where
  kind : String
  fields : Option (List StructField)
deriving DecidableEq, Repr

/-- A named entry of the IDL `types` array. -/
structure IdlTypeDef where
  name : String
  type : TypeDefType
deriving DecidableEq, Repr

/-- Total size of a struct type definition, mirroring `computeStructSize`
(part_002 lines 83-98): `null` for a missing definition, a non-struct kind,
or a missing field list; otherwise the fold of `sizeForIdlType` over the
fields starting from 0. -/
def computeStructSize : Option IdlTypeDef → Option Nat
  | none => none
  | some typeDef =>
    if typeDef.type.kind = "struct" then
      match typeDef.type.fields with
      | none => none
      | some fields =>
        some (fields.foldl (fun total field => total + sizeForIdlType field.fieldType) 0)
    else none

/-! ## Spec-side field types (spec.md §3 and the §4.1 width table)

`FieldType` is the specification data model restricted to the kinds the
spec declares total: primitives, fixed-length arrays, optional wrappers.
`specWidth` is written from the §4.1 table, to be compared with the code
function `sizeForIdlType` above. -/

inductive FieldType where
  | bool | u8 | i8 | u16 | i16 | u32 | i32 | f32 | u64 | i64 | f64 | u128 | i128
  | array (elem : FieldType) (len : Nat)
  | option (elem : FieldType)
deriving DecidableEq, Repr

/-- Width per the spec §4.1 table: bool/u8/i8 = 1, u16/i16 = 2,
u32/i32/f32 = 4, u64/i64/f64 = 8, u128/i128 = 16, array[T; n] = n × width T,
optional T = 1 + width T. -/
def specWidth : FieldType → Nat
  | .bool => 1
  | .u8 => 1
  | .i8 => 1
  | .u16 => 2
  | .i16 => 2
  | .u32 => 4
  | .i32 => 4
  | .f32 => 4
  | .u64 => 8
  | .i64 => 8
  | .f64 => 8
  | .u128 => 16
  | .i128 => 16
  | .array elem len => len * specWidth elem
  | .option elem => 1 + specWidth elem

/-- Injection of a spec-side field type into the code-side IDL type union. -/
def FieldType.toIdlType : FieldType → IdlType
  | .bool => .prim "bool"
  | .u8 => .prim "u8"
  | .i8 => .prim "i8"
  | .u16 => .prim "u16"
  | .i16 => .prim "i16"
  | .u32 => .prim "u32"
  | .i32 => .prim "i32"
  | .f32 => .prim "f32"
  | .u64 => .prim "u64"
  | .i64 => .prim "i64"
  | .f64 => .prim "f64"
  | .u128 => .prim "u128"
  | .i128 => .prim "i128"
  | .array elem len => .array elem.toIdlType (some len)
  | .option elem => .option elem.toIdlType

/-- The counter struct type definition from the IDL type helper
(part_003 lines 104-121): fields `authority : pubkey` and `count : u64`. -/
def counterTypeDef : IdlTypeDef :=
  ⟨"counter", ⟨"struct",
    some [.named "authority" (.prim "pubkey"), .named "count" (.prim "u64")]⟩⟩

/-! ## Account-size annotation (src/unnamed/part_002, `ensureAccountLayout`)

The TypeScript function looks up the first account named "counter" or
"Counter" and the first type definition with that name, computes the
struct size, and mutates the found account object: it writes
`size = 8 + structSize` only when `size` is not already a number, and copies
the type definition onto the account when `type` is absent.  The mutation of
the found array element is modelled by replacing the first matching element
of the accounts list. -/

structure IdlAccount where
  name : String
  size : Option Nat
  type : Option TypeDefType
deriving DecidableEq, Repr

structure Idl where
  accounts : Option (List IdlAccount)
  types : Option (List IdlTypeDef)
deriving DecidableEq, Repr

/-- `accountMatches` from part_002 line 101. -/
def accountMatches (name : String) : Bool :=
  name == "counter" || name == "Counter"

/-- First conditional write on the found account (part_002 lines 110-112):
`account.size = 8 + structSize` only when `size` is not already a number and
the struct size computed. -/
def writeSizeIfAbsent (structSize : Option Nat) (acc : IdlAccount) : IdlAccount :=
  match acc.size, structSize with
  | none, some s => { acc with size := some (8 + s) }
  | _, _ => acc

/-- Second conditional write (part_002 lines 113-115): copy the type
definition onto the account when its `type` attribute is absent. -/
def writeTypeIfAbsent (counterTy : Option IdlTypeDef) (acc : IdlAccount) : IdlAccount :=
  match acc.type, counterTy with
  | none, some td => { acc with type := some td.type }
  | _, _ => acc

/-- The two conditional writes performed on the found account object
(part_002 lines 110-115). -/
def annotateAccount (counterTy : Option IdlTypeDef) (structSize : Option Nat)
    (acc : IdlAccount) : IdlAccount :=
  writeTypeIfAbsent counterTy (writeSizeIfAbsent structSize acc)

/-- Replace the first account whose name matches, leaving the rest alone
(the in-place mutation of the element `find` returned). -/
def updateFirstMatching (f : IdlAccount → IdlAccount) : List IdlAccount → List IdlAccount
  | [] => []
  | acc :: rest =>
    if accountMatches acc.name then f acc :: rest
    else acc :: updateFirstMatching f rest

/-- The `account` local of `ensureAccountLayout` (part_002 line 102): the
first account named "counter" or "Counter". -/
def counterAccountLookup (idl : Idl) : Option IdlAccount :=
  idl.accounts.bind (fun accs => accs.find? (fun acc => accountMatches acc.name))

/-- The `counterTypeDef` local of `ensureAccountLayout` (part_002 line 103):
the first type definition named "counter" or "Counter". -/
def counterTypeLookup (idl : Idl) : Option IdlTypeDef :=
  idl.types.bind (fun tys => tys.find? (fun ty => accountMatches ty.name))

/-- `ensureAccountLayout` from part_002 lines 100-118: return the document
unchanged when no counter account exists, otherwise apply the two
conditional writes to the found account. -/
def ensureAccountLayout (idl : Idl) : Idl :=
  match counterAccountLookup idl with
  | none => idl
  | some _ =>
    { idl with accounts := idl.accounts.map (updateFirstMatching
        (annotateAccount (counterTypeLookup idl) (computeStructSize (counterTypeLookup idl)))) }

/-- The `size` attribute of the counter account of an IDL document: outer
`none` when no matching account exists. -/
def counterAccountSize (idl : Idl) : Option (Option Nat) :=
  (idl.accounts.bind (fun accs => accs.find? (fun acc => accountMatches acc.name))).map
    (fun acc => acc.size)

/-- The in-memory IDL document of the counter program as relevant to the
annotation step: one account named "counter" with no `size` or `type`
attribute, and the counter struct type definition (part_003 lines 89-121). -/
def counterIdl : Idl :=
  ⟨some [⟨"counter", none, none⟩], some [counterTypeDef]⟩

/-! ## Instruction selection (counter-state.tsx lines 134-145 and 278-292)

The browser app classifies the IDL's instructions: the create instruction is
the first one whose account list contains the system program, the update
instruction is the first one different from it.  `incrementCounter` then
prefers the create instruction when no counter data was fetched and the
update instruction otherwise, in both cases falling back to the other when
the preferred one is missing. -/

structure IdlInstructionAccount where
  name : String
deriving DecidableEq, Repr

structure IdlInstruction where
  name : String
  accounts : Option (List IdlInstructionAccount)
deriving DecidableEq, Repr

/-- `hasSystemProgram` from counter-state.tsx lines 139-140. -/
def hasSystemProgram (inst : IdlInstruction) : Bool :=
  (inst.accounts.map (fun accs =>
    accs.any (fun a => a.name == "systemProgram" || a.name == "system_program"))).getD false

/-- The `createInstruction` candidate (counter-state.tsx line 142). -/
def createCandidate (instructions : List IdlInstruction) : Option IdlInstruction :=
  instructions.find? hasSystemProgram

/-- The `updateInstruction` candidate (counter-state.tsx line 143); the
source compares object references, modelled here by structural equality. -/
def updateCandidate (instructions : List IdlInstruction) : Option IdlInstruction :=
  instructions.find? (fun inst => !(some inst == createCandidate instructions))

/-- The decoded counter account: `authority` and `count` (part_003). -/
structure CounterAccountData where
  authority : String
  count : Nat
deriving DecidableEq, Repr

/-- The instruction chosen by `incrementCounter` (counter-state.tsx lines
279-280): `shouldInitialize` is `counterData === null`, and the preferred
instruction is `createInstruction ?? updateInstruction` when initializing,
`updateInstruction ?? createInstruction` otherwise. -/
def preferredInstruction (counterData : Option CounterAccountData)
    (createInstruction updateInstruction : Option IdlInstruction) : Option IdlInstruction :=
  if counterData.isNone then createInstruction.orElse (fun _ => updateInstruction)
  else updateInstruction.orElse (fun _ => createInstruction)

/-- The `createCounter` instruction of the counter IDL (part_003 lines
15-52). -/
def createCounterInstruction : IdlInstruction :=
  ⟨"createCounter", some [⟨"authority"⟩, ⟨"counter"⟩, ⟨"systemProgram"⟩]⟩

/-- The `updateCounter` instruction of the counter IDL (part_003 lines
53-87). -/
def updateCounterInstruction : IdlInstruction :=
  ⟨"updateCounter", some [⟨"authority"⟩, ⟨"counter"⟩]⟩

/-- The instruction list of the counter IDL (part_003). -/
def counterInstructions : List IdlInstruction :=
  [createCounterInstruction, updateCounterInstruction]

/-- Modelled from the spec: the CLI entry point `src/call-program.ts` is not
among the provided sources (only its README, src/unnamed/part_000, is), so
its flag validation and method lookup are modelled from spec §6/§7 and the
README troubleshooting section: missing `--program-id` or `--method`
terminates with a missing-argument error, and a `--method` name absent from
the interface description terminates with an error naming that method;
otherwise the invocation proceeds.  `Except.error` stands for a non-zero
exit. -/
def runCli (programId : Option String) (method : Option String)
    (idlInstructionNames : List String) : Except String Unit :=
  match programId with
  | none => .error "Missing required argument: program-id"
  | some _ =>
    match method with
    | none => .error "Missing required argument: method"
    | some m =>
      if idlInstructionNames.contains m then .ok ()
      else .error ("Method \x27" ++ m ++ "\x27 not found in the provided IDL.")

/-! ## The in-flight write guard (counter-state.tsx lines 263-268 and 332-334)

`incrementCounter` returns immediately when `isProcessing` is already set,
sets the flag before issuing the write, and clears it in the `finally`
block, i.e. only when the in-flight call settles.  The control is modelled
as a transition system over the flag and a count of writes issued. -/

structure IncrementControlState where
  isProcessing : Bool
  writesIssued : Nat
deriving DecidableEq, Repr

inductive IncrementEvent where
  | invoke
  | settle
deriving DecidableEq, Repr

/-- One step of the increment control: an invocation while a write is in
flight returns without sending (counter-state.tsx lines 263-265); an
invocation while idle sets the flag and issues the write (lines 267, 296);
the settling of the in-flight call runs the `finally` block clearing the
flag (lines 332-334). -/
def incrementStep (s : IncrementControlState) : IncrementEvent → IncrementControlState
  | .invoke =>
    if s.isProcessing then s
    else { isProcessing := true, writesIssued := s.writesIssued + 1 }
  | .settle => { s with isProcessing := false }

/-! ## Little-endian u64 decoding (counter-state.tsx lines 44-54)

`readUint64LE` throws when the buffer holds fewer than `offset + 8` bytes
(modelled by `none`), and otherwise ORs the 8 bytes into a big integer,
byte `offset + index` shifted left by `index * 8` bits.  Buffers are lists
of naturals; the `Uint8Array` invariant that every byte is below 256 enters
the correctness statement as a hypothesis. -/

def readUint64LE (buffer : List Nat) (offset : Nat) : Option Nat :=
  if buffer.length < offset + 8 then none
  else some ((List.range 8).foldl
    (fun value index => value ||| (buffer.getD (offset + index) 0 <<< (index * 8))) 0)

/-! ## Participant deduplication (counter-state.tsx lines 115-124)

`fetchInteractingWallets` walks the decoded participants, keeps a `Set` of
seen addresses, skips a participant whose address was already seen, and
pushes the others in order.  The `Set` is modelled as the list of seen
addresses, membership by `List.contains`. -/

structure CounterParticipant where
  address : String
  count : String
deriving DecidableEq, Repr

/-- The dedup loop of `fetchInteractingWallets`: fold over the participants
carrying (uniqueParticipants, seenAddresses). -/
def uniqueParticipants (participants : List CounterParticipant) : List CounterParticipant :=
  (participants.foldl
    (fun state participant =>
      if state.2.contains participant.address then state
      else (state.1 ++ [participant], participant.address :: state.2))
    ([], [])).1

/-- Recursive form of the dedup loop, for reasoning. -/
def dedupeFirstAux (seen : List String) : List CounterParticipant → List CounterParticipant
  | [] => []
  | p :: rest =>
    if seen.contains p.address then dedupeFirstAux seen rest
    else p :: dedupeFirstAux (p.address :: seen) rest

/-- The regex character class `[a-z]`. -/
def isAsciiLowerAlpha (c : Char) : Bool :=
  'a' ≤ c && c ≤ 'z'

/-- Left-to-right, non-overlapping replacement of `_x` (x ASCII lowercase)
by `X`, the semantics of `String.replace` with the global `/_([a-z])/g`
regex. -/
def replaceUnderscoreLower : List Char → List Char
  | [] => []
  | [c] => [c]
  | c1 :: c2 :: rest =>
    if c1 == '_' && isAsciiLowerAlpha c2 then c2.toUpper :: replaceUnderscoreLower rest
    else c1 :: replaceUnderscoreLower (c2 :: rest)

/-- `toCamelCase` from counter-state.tsx lines 25-31. -/
def toCamelCase (name : String) : String :=
  match name.data with
  | [] => name
  | c :: rest => ⟨replaceUnderscoreLower (c.toLower :: rest)⟩

theorem sizeForIdlType_toIdlType (t : FieldType) :
    sizeForIdlType t.toIdlType = specWidth t := by
  induction t with
  | array elem len ih => simp [FieldType.toIdlType, sizeForIdlType, specWidth, ih]
  | option elem ih => simp [FieldType.toIdlType, sizeForIdlType, specWidth, ih]
  | _ => rfl

theorem structFields_foldl_eq_sum (fields : List StructField) (a : Nat) :
    fields.foldl (fun total field => total + sizeForIdlType field.fieldType) a
      = a + (fields.map (fun field => sizeForIdlType field.fieldType)).sum := by
  induction fields generalizing a with
  | nil => simp
  | cons f rest ih => simp [List.foldl, ih, Nat.add_assoc]

/-- C1: for every StructSchema whose fields are built only from primitive
kinds, fixed-length arrays, and optional wrappers, the size inferencer
returns the sum over fields of the widths given in the spec §4.1 table. -/
theorem computeStructSize_eq_sum_specWidth (name : String)
    (schema : List (String × FieldType)) :
    computeStructSize (some ⟨name,
        ⟨"struct", some (schema.map (fun f => StructField.named f.1 f.2.toIdlType))⟩⟩)
      = some ((schema.map (fun f => specWidth f.2)).sum) := by
  show some ((schema.map (fun f => StructField.named f.1 f.2.toIdlType)).foldl
      (fun total field => total + sizeForIdlType field.fieldType) 0) = _
  rw [structFields_foldl_eq_sum]
  simp only [Nat.zero_add, Option.some.injEq, List.map_map]
  congr 1
  apply List.map_congr_left
  intro f _
  simp [Function.comp, StructField.fieldType, sizeForIdlType_toIdlType]

/-- C2 (code evaluation at the failing input): "pubkey" is not among the
primitive cases of `sizeForIdlType`, so it falls into the default branch
worth 0, and the counter struct size computes to 0 + 8 = 8 rather than the
32 + 8 = 40 the specification states; with the 8-byte discriminator the
annotated account size is 16, not 48. -/
theorem counter_schema_size_eval :
    sizeForIdlType (.prim "pubkey") = 0
      ∧ computeStructSize (some counterTypeDef) = some 8
      ∧ computeStructSize (some counterTypeDef) ≠ some 40
      ∧ counterAccountSize (ensureAccountLayout counterIdl) = some (some 16)
      ∧ counterAccountSize (ensureAccountLayout counterIdl) ≠ some (some 48) := by
  refine ⟨rfl, rfl, by decide, by decide, by decide⟩

/-- C3: the size inferencer is total (it is a plain function, never an
exception), a vec field is worth 0, and a struct schema with one vec field
among otherwise arbitrary fields yields exactly the sum of the other
fields' widths. -/
theorem computeStructSize_vec_contributes_zero (name fieldName : String)
    (elem : IdlType) (pre post : List StructField) :
    sizeForIdlType (.vec elem) = 0
      ∧ computeStructSize (some ⟨name,
          ⟨"struct", some (pre ++ [StructField.named fieldName (.vec elem)] ++ post)⟩⟩)
        = some (((pre ++ post).map (fun field => sizeForIdlType field.fieldType)).sum) := by
  constructor
  · rfl
  · show some ((pre ++ [StructField.named fieldName (.vec elem)] ++ post).foldl
        (fun total field => total + sizeForIdlType field.fieldType) 0) = _
    rw [structFields_foldl_eq_sum]
    simp [StructField.fieldType, sizeForIdlType]

theorem writeSizeIfAbsent_size (ss : Option Nat) (acc : IdlAccount) :
    (writeSizeIfAbsent ss acc).size
      = match acc.size, ss with
        | none, some s => some (8 + s)
        | _, _ => acc.size := by
  obtain ⟨n, sz, ty⟩ := acc
  cases sz <;> cases ss <;> rfl

theorem writeSizeIfAbsent_name (ss : Option Nat) (acc : IdlAccount) :
    (writeSizeIfAbsent ss acc).name = acc.name := by
  obtain ⟨n, sz, ty⟩ := acc
  cases sz <;> cases ss <;> rfl

theorem writeTypeIfAbsent_size (ty : Option IdlTypeDef) (acc : IdlAccount) :
    (writeTypeIfAbsent ty acc).size = acc.size := by
  obtain ⟨n, sz, t⟩ := acc
  cases t <;> cases ty <;> rfl

theorem writeTypeIfAbsent_name (ty : Option IdlTypeDef) (acc : IdlAccount) :
    (writeTypeIfAbsent ty acc).name = acc.name := by
  obtain ⟨n, sz, t⟩ := acc
  cases t <;> cases ty <;> rfl

theorem annotateAccount_size (ty : Option IdlTypeDef) (ss : Option Nat) (acc : IdlAccount) :
    (annotateAccount ty ss acc).size
      = match acc.size, ss with
        | none, some s => some (8 + s)
        | _, _ => acc.size := by
  rw [annotateAccount, writeTypeIfAbsent_size, writeSizeIfAbsent_size]

theorem annotateAccount_name (ty : Option IdlTypeDef) (ss : Option Nat) (acc : IdlAccount) :
    (annotateAccount ty ss acc).name = acc.name := by
  rw [annotateAccount, writeTypeIfAbsent_name, writeSizeIfAbsent_name]

theorem find?_updateFirstMatching (f : IdlAccount → IdlAccount)
    (hf : ∀ a, (f a).name = a.name) (l : List IdlAccount) :
    (updateFirstMatching f l).find? (fun a => accountMatches a.name)
      = (l.find? (fun a => accountMatches a.name)).map f := by
  induction l with
  | nil => rfl
  | cons a rest ih =>
    by_cases h : accountMatches a.name
    · have hfa : accountMatches (f a).name = true := by rw [hf]; exact h
      simp [updateFirstMatching, h, List.find?, hfa]
    · have h' : accountMatches a.name = false := by simpa using h
      simp [updateFirstMatching, h', List.find?, ih]

theorem ensureAccountLayout_of_lookup_none (idl : Idl)
    (h : counterAccountLookup idl = none) : ensureAccountLayout idl = idl := by
  rw [ensureAccountLayout, h]

theorem ensureAccountLayout_types (idl : Idl) :
    (ensureAccountLayout idl).types = idl.types := by
  rw [ensureAccountLayout]
  cases counterAccountLookup idl <;> rfl

theorem counterAccountLookup_ensureAccountLayout (idl : Idl) (acc : IdlAccount)
    (hfind : counterAccountLookup idl = some acc) :
    counterAccountLookup (ensureAccountLayout idl)
      = some (annotateAccount (counterTypeLookup idl)
          (computeStructSize (counterTypeLookup idl)) acc) := by
  rw [ensureAccountLayout, hfind]
  rw [counterAccountLookup] at hfind ⊢
  dsimp only
  cases hacc : idl.accounts with
  | none => rw [hacc] at hfind; exact absurd hfind (by simp)
  | some accs =>
    rw [hacc] at hfind
    rw [Option.some_bind'] at hfind
    rw [Option.map_some', Option.some_bind',
      find?_updateFirstMatching _ (fun a => annotateAccount_name _ _ a), hfind,
      Option.map_some']

theorem counterAccountSize_eq_lookup (idl : Idl) :
    counterAccountSize idl = (counterAccountLookup idl).map (fun acc => acc.size) := rfl

/-- C4: the annotation step writes 8 + computed struct size into the counter
account's `size` attribute only when that attribute is absent (an
already-present size is left as is), and running the step a second time on
the resulting document leaves the `size` attribute unchanged. -/
theorem ensureAccountLayout_size_write_and_idempotent (idl : Idl) (acc : IdlAccount)
    (hfind : counterAccountLookup idl = some acc) :
    (∀ s, acc.size = none → computeStructSize (counterTypeLookup idl) = some s →
        counterAccountSize (ensureAccountLayout idl) = some (some (8 + s)))
    ∧ (∀ n, acc.size = some n →
        counterAccountSize (ensureAccountLayout idl) = some (some n))
    ∧ counterAccountSize (ensureAccountLayout (ensureAccountLayout idl))
        = counterAccountSize (ensureAccountLayout idl) := by
  have hget := counterAccountLookup_ensureAccountLayout idl acc hfind
  refine ⟨?_, ?_, ?_⟩
  · intro s hsz hss
    rw [counterAccountSize_eq_lookup, hget, Option.map_some', annotateAccount_size, hsz, hss]
  · intro n hsz
    rw [counterAccountSize_eq_lookup, hget, Option.map_some', annotateAccount_size, hsz]
  · have hty : counterTypeLookup (ensureAccountLayout idl) = counterTypeLookup idl := by
      rw [counterTypeLookup, counterTypeLookup, ensureAccountLayout_types]
    have hget2 := counterAccountLookup_ensureAccountLayout (ensureAccountLayout idl) _ hget
    rw [counterAccountSize_eq_lookup, hget2, hty, Option.map_some',
      counterAccountSize_eq_lookup, hget, Option.map_some', annotateAccount_size,
      annotateAccount_size]
    cases hsz : acc.size <;> cases hss : computeStructSize (counterTypeLookup idl) <;> rfl

/-- Witness for C4 at the counter IDL document: the first run writes
8 + 8 = 16 and the second run leaves the attribute unchanged. -/
theorem ensureAccountLayout_size_write_and_idempotent_witness :
    counterAccountSize (ensureAccountLayout counterIdl) = some (some 16)
    ∧ counterAccountSize (ensureAccountLayout (ensureAccountLayout counterIdl))
        = counterAccountSize (ensureAccountLayout counterIdl) := by
  have h := ensureAccountLayout_size_write_and_idempotent counterIdl
    ⟨"counter", none, none⟩ (by decide)
  exact ⟨h.1 8 rfl (by decide), h.2.2⟩

/-- C5: when both candidates exist, the increment flow selects the create
instruction (which contains the system program in its account list) exactly
when no counter data was fetched, and the update instruction otherwise. -/
theorem preferredInstruction_by_existence (instructions : List IdlInstruction)
    (ci ui : IdlInstruction)
    (hc : createCandidate instructions = some ci)
    (hu : updateCandidate instructions = some ui) (d : CounterAccountData) :
    preferredInstruction none (createCandidate instructions) (updateCandidate instructions)
        = some ci
    ∧ preferredInstruction (some d) (createCandidate instructions) (updateCandidate instructions)
        = some ui
    ∧ hasSystemProgram ci = true := by
  refine ⟨?_, ?_, ?_⟩
  · rw [preferredInstruction, hc]; rfl
  · rw [preferredInstruction, hu]; rfl
  · exact List.find?_some hc

/-- Witness for C5 on the counter IDL: `createCounter` is classified as the
create instruction, `updateCounter` as the update instruction, and the
selection follows account existence. -/
theorem preferredInstruction_by_existence_witness :
    preferredInstruction none (createCandidate counterInstructions)
        (updateCandidate counterInstructions) = some createCounterInstruction
    ∧ preferredInstruction (some ⟨"wallet", 3⟩) (createCandidate counterInstructions)
        (updateCandidate counterInstructions) = some updateCounterInstruction
    ∧ hasSystemProgram createCounterInstruction = true := by
  have h := preferredInstruction_by_existence counterInstructions
    createCounterInstruction updateCounterInstruction (by decide) (by decide) ⟨"wallet", 3⟩
  exact h

/-- C6: the CLI exits non-zero when a required flag is missing, and exits
with an error naming the missing method when the named instruction is not in
the interface description. -/
theorem runCli_exit_behaviour (programId method : Option String)
    (names : List String) (m : String) :
    (programId = none → ∃ e, runCli programId method names = .error e)
    ∧ (method = none → ∃ e, runCli programId method names = .error e)
    ∧ (names.contains m = false →
        runCli (some "FzLMd2FEkKFPnLUy7v23n2BUS8txtXzPS97dEC2CB7q7") (some m) names
          = .error ("Method \x27" ++ m ++ "\x27 not found in the provided IDL.")) := by
  refine ⟨?_, ?_, ?_⟩
  · intro h; subst h; exact ⟨_, rfl⟩
  · intro h; subst h
    cases programId <;> exact ⟨_, rfl⟩
  · intro h
    have hm : m ∉ names := by simpa using h
    rw [runCli]
    simp [hm]

/-- Witness for C6: invoking with `--method increment` against an interface
description whose instructions are `createCounter` and `updateCounter` exits
with the error naming `increment`; omitting either required flag exits with
an error. -/
theorem runCli_exit_behaviour_witness :
    (∃ e, runCli none (some "increment") ["createCounter", "updateCounter"] = .error e)
    ∧ (∃ e, runCli (some "FzLMd2FEkKFPnLUy7v23n2BUS8txtXzPS97dEC2CB7q7") none
        ["createCounter", "updateCounter"] = .error e)
    ∧ runCli (some "FzLMd2FEkKFPnLUy7v23n2BUS8txtXzPS97dEC2CB7q7") (some "increment")
        ["createCounter", "updateCounter"]
      = .error "Method \x27increment\x27 not found in the provided IDL." := by
  refine ⟨?_, ?_, ?_⟩
  · exact (runCli_exit_behaviour none (some "increment")
      ["createCounter", "updateCounter"] "increment").1 rfl
  · exact (runCli_exit_behaviour (some "FzLMd2FEkKFPnLUy7v23n2BUS8txtXzPS97dEC2CB7q7") none
      ["createCounter", "updateCounter"] "increment").2.1 rfl
  · exact (runCli_exit_behaviour (some "FzLMd2FEkKFPnLUy7v23n2BUS8txtXzPS97dEC2CB7q7")
      (some "increment") ["createCounter", "updateCounter"] "increment").2.2 (by decide)

/-- C7: invoking the increment operation while the in-flight flag is set
changes nothing — no second write is issued and the flag stays set — and no
event other than the settling of the in-flight call ever clears the flag. -/
theorem incrementStep_inflight_guard (s : IncrementControlState)
    (h : s.isProcessing = true) :
    incrementStep s .invoke = s
    ∧ (incrementStep s .invoke).writesIssued = s.writesIssued
    ∧ ∀ e, (incrementStep s e).isProcessing = false → e = .settle := by
  refine ⟨?_, ?_, ?_⟩
  · rw [incrementStep, if_pos h]
  · rw [incrementStep, if_pos h]
  · intro e he
    cases e with
    | invoke =>
      exfalso
      rw [incrementStep] at he
      by_cases hp : s.isProcessing = true
      · rw [if_pos hp] at he; rw [hp] at he; exact Bool.noConfusion he
      · rw [if_neg hp] at he; exact Bool.noConfusion he
    | settle => rfl

/-- Witness for C7 at a concrete in-flight state. -/
theorem incrementStep_inflight_guard_witness :
    incrementStep ⟨true, 5⟩ .invoke = ⟨true, 5⟩
    ∧ (incrementStep ⟨true, 5⟩ .invoke).writesIssued = 5
    ∧ ∀ e, (incrementStep ⟨true, 5⟩ e).isProcessing = false → e = .settle :=
  incrementStep_inflight_guard ⟨true, 5⟩ rfl

theorem lor_shiftLeft_eq_add (a b m : Nat) (h : a < 2 ^ m) :
    a ||| (b <<< m) = a + b * 2 ^ m := by
  rw [Nat.shiftLeft_eq, Nat.lor_comm, Nat.mul_comm b (2 ^ m), ← Nat.mul_add_lt_is_or h b]
  exact Nat.add_comm _ _

theorem byte_sum_lt (f : Nat → Nat) (hf : ∀ i, f i < 256) (n : Nat) :
    ((List.range n).map (fun i => f i * 256 ^ i)).sum < 256 ^ n := by
  induction n with
  | zero => simp
  | succ n ih =>
    have hstep : ((List.range (n + 1)).map (fun i => f i * 256 ^ i)).sum
        = ((List.range n).map (fun i => f i * 256 ^ i)).sum + f n * 256 ^ n := by
      simp [List.range_succ]
    rw [hstep]
    calc ((List.range n).map (fun i => f i * 256 ^ i)).sum + f n * 256 ^ n
        < 256 ^ n + f n * 256 ^ n := Nat.add_lt_add_right ih _
      _ = (1 + f n) * 256 ^ n := by ring
      _ ≤ 256 * 256 ^ n := Nat.mul_le_mul_right _ (by have := hf n; omega)
      _ = 256 ^ (n + 1) := by ring

theorem lor_foldl_eq_byte_sum (f : Nat → Nat) (hf : ∀ i, f i < 256) (n : Nat) :
    (List.range n).foldl (fun value index => value ||| (f index <<< (index * 8))) 0
      = ((List.range n).map (fun i => f i * 256 ^ i)).sum := by
  induction n with
  | zero => rfl
  | succ n ih =>
    have h256 : (256 : Nat) ^ n = 2 ^ (n * 8) := by
      rw [Nat.mul_comm n 8, Nat.pow_mul]
    have hbound : ((List.range n).map (fun i => f i * 256 ^ i)).sum < 2 ^ (n * 8) := by
      rw [← h256]; exact byte_sum_lt f hf n
    simp only [List.range_succ, List.foldl_append, List.foldl_cons, List.foldl_nil,
      List.map_append, List.map_cons, List.map_nil, List.sum_append, List.sum_cons,
      List.sum_nil, ih]
    rw [lor_shiftLeft_eq_add _ _ _ hbound, ← h256]
    ring

/-- C8: `readUint64LE` returns the unsigned little-endian 64-bit integer
formed from the 8 bytes at positions `offset` through `offset + 7`, and it
throws exactly when the buffer holds fewer than `offset + 8` bytes. -/
theorem readUint64LE_spec (buffer : List Nat) (offset : Nat)
    (hbytes : ∀ b ∈ buffer, b < 256) :
    (readUint64LE buffer offset = none ↔ buffer.length < offset + 8)
    ∧ (offset + 8 ≤ buffer.length →
        readUint64LE buffer offset
          = some (((List.range 8).map
              (fun i => buffer.getD (offset + i) 0 * 256 ^ i)).sum)) := by
  have hgetD : ∀ k, buffer.getD k 0 < 256 := by
    intro k
    by_cases hk : k < buffer.length
    · rw [List.getD_eq_getElem buffer 0 hk]
      exact hbytes _ (List.getElem_mem hk)
    · rw [List.getD_eq_default buffer 0 (Nat.le_of_not_lt hk)]
      omega
  constructor
  · constructor
    · intro h
      by_contra hlen
      rw [readUint64LE, if_neg hlen] at h
      exact Option.noConfusion h
    · intro hlen
      rw [readUint64LE, if_pos hlen]
  · intro hlen
    rw [readUint64LE, if_neg (by omega)]
    exact congrArg some
      (lor_foldl_eq_byte_sum (fun i => buffer.getD (offset + i) 0) (fun i => hgetD _) 8)

/-- Witness for C8 at a concrete 10-byte buffer read from offset 1:
0x0807060504030201 in little-endian order, and the failing read at
offset 3. -/
theorem readUint64LE_spec_witness :
    readUint64LE [9, 1, 2, 3, 4, 5, 6, 7, 8, 9] 1
        = some (((List.range 8).map
            (fun i => [9, 1, 2, 3, 4, 5, 6, 7, 8, 9].getD (1 + i) 0 * 256 ^ i)).sum)
    ∧ (readUint64LE [9, 1, 2, 3, 4, 5, 6, 7, 8, 9] 3 = none ↔
        ([9, 1, 2, 3, 4, 5, 6, 7, 8, 9] : List Nat).length < 3 + 8) := by
  constructor
  · exact (readUint64LE_spec [9, 1, 2, 3, 4, 5, 6, 7, 8, 9] 1 (by decide)).2 (by decide)
  · exact (readUint64LE_spec [9, 1, 2, 3, 4, 5, 6, 7, 8, 9] 3 (by decide)).1

theorem foldl_eq_dedupeFirstAux (ps : List CounterParticipant)
    (acc : List CounterParticipant) (seen : List String) :
    (ps.foldl
      (fun state participant =>
        if state.2.contains participant.address then state
        else (state.1 ++ [participant], participant.address :: state.2))
      (acc, seen)).1 = acc ++ dedupeFirstAux seen ps := by
  induction ps generalizing acc seen with
  | nil => simp [dedupeFirstAux]
  | cons p rest ih =>
    by_cases h : seen.contains p.address
    · simp only [List.foldl_cons, dedupeFirstAux, if_pos h]
      exact ih acc seen
    · simp only [List.foldl_cons, dedupeFirstAux, if_neg h]
      rw [ih (acc ++ [p]) (p.address :: seen), List.append_assoc]
      rfl

theorem uniqueParticipants_eq_dedupeFirstAux (ps : List CounterParticipant) :
    uniqueParticipants ps = dedupeFirstAux [] ps := by
  rw [uniqueParticipants, foldl_eq_dedupeFirstAux, List.nil_append]

theorem dedupeFirstAux_sublist (ps : List CounterParticipant) (seen : List String) :
    List.Sublist (dedupeFirstAux seen ps) ps := by
  induction ps generalizing seen with
  | nil => exact List.Sublist.refl _
  | cons p rest ih =>
    by_cases h : seen.contains p.address
    · rw [dedupeFirstAux, if_pos h]
      exact (ih seen).cons p
    · rw [dedupeFirstAux, if_neg h]
      exact (ih (p.address :: seen)).cons₂ p

theorem mem_dedupeFirstAux_not_seen (ps : List CounterParticipant) (seen : List String)
    (q : CounterParticipant) (hq : q ∈ dedupeFirstAux seen ps) : q.address ∉ seen := by
  induction ps generalizing seen with
  | nil => simp [dedupeFirstAux] at hq
  | cons p rest ih =>
    by_cases h : seen.contains p.address
    · rw [dedupeFirstAux, if_pos h] at hq
      exact ih seen hq
    · rw [dedupeFirstAux, if_neg h] at hq
      rcases List.mem_cons.mp hq with hq | hq
      · subst hq
        simpa using h
      · have := ih (p.address :: seen) hq
        intro hmem
        exact this (List.mem_cons_of_mem _ hmem)

theorem dedupeFirstAux_addresses_nodup (ps : List CounterParticipant) (seen : List String) :
    ((dedupeFirstAux seen ps).map (fun p => p.address)).Nodup := by
  induction ps generalizing seen with
  | nil => simp [dedupeFirstAux]
  | cons p rest ih =>
    by_cases h : seen.contains p.address
    · rw [dedupeFirstAux, if_pos h]
      exact ih seen
    · rw [dedupeFirstAux, if_neg h]
      rw [List.map_cons, List.nodup_cons]
      refine ⟨?_, ih (p.address :: seen)⟩
      intro hmem
      rcases List.mem_map.mp hmem with ⟨q, hq, haddr⟩
      exact mem_dedupeFirstAux_not_seen rest (p.address :: seen) q hq
        (haddr ▸ List.mem_cons_self _ _)

theorem dedupeFirstAux_first_occurrence (ps : List CounterParticipant) (seen : List String)
    (q : CounterParticipant) (hq : q ∈ dedupeFirstAux seen ps) :
    ps.find? (fun r => r.address == q.address) = some q := by
  induction ps generalizing seen with
  | nil => simp [dedupeFirstAux] at hq
  | cons p rest ih =>
    by_cases h : seen.contains p.address
    · rw [dedupeFirstAux, if_pos h] at hq
      have hne : (p.address == q.address) = false := by
        have hqn := mem_dedupeFirstAux_not_seen rest seen q hq
        have hpn : p.address ∈ seen := by simpa using h
        simp only [beq_eq_false_iff_ne, ne_eq]
        intro hcon
        exact hqn (hcon ▸ hpn)
      rw [List.find?_cons_of_neg _ (by simp [hne])]
      exact ih seen hq
    · rw [dedupeFirstAux, if_neg h] at hq
      rcases List.mem_cons.mp hq with hq | hq
      · subst hq
        exact List.find?_cons_of_pos _ (by simp)
      · have hqn := mem_dedupeFirstAux_not_seen rest (p.address :: seen) q hq
        have hne : (p.address == q.address) = false := by
          simp only [beq_eq_false_iff_ne, ne_eq]
          intro hcon
          exact hqn (hcon ▸ List.mem_cons_self _ _)
        rw [List.find?_cons_of_neg _ (by simp [hne])]
        exact ih (p.address :: seen) hq

theorem dedupeFirstAux_complete (ps : List CounterParticipant) (seen : List String)
    (p : CounterParticipant) (hp : p ∈ ps) :
    p.address ∈ seen ∨ ∃ q ∈ dedupeFirstAux seen ps, q.address = p.address := by
  induction ps generalizing seen with
  | nil => simp at hp
  | cons a rest ih =>
    by_cases h : seen.contains a.address
    · rw [dedupeFirstAux, if_pos h]
      rcases List.mem_cons.mp hp with hp | hp
      · subst hp
        exact Or.inl (by simpa using h)
      · exact ih seen hp
    · rw [dedupeFirstAux, if_neg h]
      rcases List.mem_cons.mp hp with hp | hp
      · subst hp
        exact Or.inr ⟨p, List.mem_cons_self _ _, rfl⟩
      · rcases ih (a.address :: seen) hp with hmem | ⟨q, hq, haddr⟩
        · rcases List.mem_cons.mp hmem with heq | hmem
          · exact Or.inr ⟨a, List.mem_cons_self _ _, heq.symm⟩
          · exact Or.inl hmem
        · exact Or.inr ⟨q, List.mem_cons_of_mem _ hq, haddr⟩

/-- C9: the deduplicated participant list has pairwise-distinct addresses,
is a sublist of the input (so the order of kept elements is preserved),
every kept element is the first occurrence of its address in the input, and
every input address is represented. -/
theorem uniqueParticipants_spec (ps : List CounterParticipant) :
    ((uniqueParticipants ps).map (fun p => p.address)).Nodup
    ∧ List.Sublist (uniqueParticipants ps) ps
    ∧ (∀ q ∈ uniqueParticipants ps, ps.find? (fun r => r.address == q.address) = some q)
    ∧ (∀ p ∈ ps, ∃ q ∈ uniqueParticipants ps, q.address = p.address) := by
  rw [uniqueParticipants_eq_dedupeFirstAux]
  refine ⟨dedupeFirstAux_addresses_nodup ps [], dedupeFirstAux_sublist ps [], ?_, ?_⟩
  · intro q hq
    exact dedupeFirstAux_first_occurrence ps [] q hq
  · intro p hp
    rcases dedupeFirstAux_complete ps [] p hp with hmem | hex
    · simp at hmem
    · exact hex

/-- Witness for C9 at a concrete list with a duplicated address: the first
occurrence is kept, the later one dropped, order preserved. -/
theorem uniqueParticipants_spec_witness :
    uniqueParticipants [⟨"addr1", "1"⟩, ⟨"addr2", "2"⟩, ⟨"addr1", "3"⟩]
        = [⟨"addr1", "1"⟩, ⟨"addr2", "2"⟩]
    ∧ ((uniqueParticipants [⟨"addr1", "1"⟩, ⟨"addr2", "2"⟩, ⟨"addr1", "3"⟩]).map
        (fun p => p.address)).Nodup := by
  exact ⟨by decide,
    (uniqueParticipants_spec [⟨"addr1", "1"⟩, ⟨"addr2", "2"⟩, ⟨"addr1", "3"⟩]).1⟩

theorem toLower_of_asciiLower (c : Char) (h : isAsciiLowerAlpha c = true) :
    c.toLower = c := by
  rw [isAsciiLowerAlpha, Bool.and_eq_true] at h
  rw [Char.toLower, if_neg]
  intro hcon
  have h1 : ('a' : Char).val ≤ c.val := of_decide_eq_true h.1
  rw [UInt32.le_def] at h1
  have h97 : (97 : Nat) ≤ c.toNat := by
    have := Fin.le_def.mp h1
    simpa [Char.toNat, UInt32.toNat] using this
  omega

theorem replaceUnderscoreLower_of_no_underscore (l : List Char) (h : '_' ∉ l) :
    replaceUnderscoreLower l = l := by
  induction l with
  | nil => rfl
  | cons c rest ih =>
    cases rest with
    | nil => rfl
    | cons c2 rest2 =>
      have hc : (c == '_') = false := by
        simp only [beq_eq_false_iff_ne, ne_eq]
        intro hcon
        exact h (hcon ▸ List.mem_cons_self _ _)
      rw [replaceUnderscoreLower, if_neg (by simp [hc])]
      have hrest : '_' ∉ c2 :: rest2 := fun hm => h (List.mem_cons_of_mem _ hm)
      rw [ih hrest]

/-- C10: `toCamelCase` maps the empty string to itself; a name with no
underscores and an ASCII-lowercase first character is returned unchanged;
and each underscore followed by a lowercase letter is replaced by that
letter uppercased, as the concrete instruction-name instances show. -/
theorem toCamelCase_spec :
    toCamelCase "" = ""
    ∧ (∀ (s : String) (c : Char) (rest : List Char), s.data = c :: rest →
        isAsciiLowerAlpha c = true → '_' ∉ s.data → toCamelCase s = s)
    ∧ toCamelCase "update_counter" = "updateCounter"
    ∧ toCamelCase "system_program" = "systemProgram"
    ∧ toCamelCase "CreateCounter" = "createCounter" := by
  refine ⟨rfl, ?_, by decide, by decide, by decide⟩
  intro s c rest hdata hlower hnou
  rw [hdata] at hnou
  have hs : toCamelCase s = ⟨replaceUnderscoreLower (c.toLower :: rest)⟩ := by
    rw [toCamelCase, hdata]
  rw [hs, toLower_of_asciiLower c hlower, replaceUnderscoreLower_of_no_underscore _ hnou,
    ← hdata]

/-- Witness for C10: the already-camelCase name "counter" is returned
unchanged. -/
theorem toCamelCase_spec_witness : toCamelCase "counter" = "counter" :=
  toCamelCase_spec.2.1 "counter" 'c' ['o', 'u', 'n', 't', 'e', 'r'] rfl (by decide) (by decide)

end SolTest
